/-
  Verification of the hornet MMV (Memory-Mapped Values) client and dump
  library against its natural-language specification.

  The development shallowly embeds the relevant parts of the Rust sources:
    - src/lib.rs                (constants)
    - src/client/metric.rs      (Metric, Indom, Unit, typed-value encoder,
                                 string-section writer, registration pass)
    - src/client/mod.rs         (Client.new_custom, begin_all sizing,
                                 TOC emission)
    - src/metric.rs             (historical revision of the encoder)
    - src/mmv/mod.rs            (header parser, validity predicates)
    - src/mmv/mmvfmt.rs         (typed-value decoding in the renderer)

  Machine integers are modelled as Nat (unsigned) or Int (signed) with
  explicit reductions modulo 2^w where the source wraps or truncates.
  Strings are modelled as lists of byte values where byte length matters.
  Rust std DefaultHasher (SipHash-1-3 with zero keys) is modelled
  bit-precisely; the model reproduces the documented finish value of the
  empty input, 15130871412783076140.
-/
import Mathlib

namespace Hornet

/-! ### Constants

HDR_LEN, TOC_BLOCK_LEN and CLUSTER_ID_BIT_LEN are defined in src/lib.rs.
The remaining block-size constants are imported by the sources under src/
from a crate root that is not part of the source tree; their values are
modelled from the specification (sections 4.5 and 4.6): V1 metric block
104 bytes, value block 32 bytes, string cell 256 bytes, indom block 32
bytes, V1 instance block 80 bytes, metric name at most 63 bytes plus NUL,
numeric value slot 8 bytes, item id 10 bits, indom id 22 bits. -/

def HDR_LEN : Nat := 40
def TOC_BLOCK_LEN : Nat := 16
def CLUSTER_ID_BIT_LEN : Nat := 12

/-- Modelled from the spec: V1 metric block length (104 bytes); the
constant is only declared, not defined, under src/. -/
def METRIC_BLOCK_LEN : Nat := 104

/-- Modelled from the spec: value block length (32 bytes). -/
def VALUE_BLOCK_LEN : Nat := 32

/-- Modelled from the spec: string cell length (256 bytes). -/
def STRING_BLOCK_LEN : Nat := 256

/-- Modelled from the spec: indom block length (32 bytes). -/
def INDOM_BLOCK_LEN : Nat := 32

/-- Modelled from the spec: V1 instance block length (80 bytes). -/
def INSTANCE_BLOCK_LEN : Nat := 80

/-- Modelled from the spec: metric name buffer length, 63 bytes plus the
terminating NUL. -/
def METRIC_NAME_MAX_LEN : Nat := 64

/-- Modelled from the spec: numeric value slot size (8 bytes). -/
def NUMERIC_VALUE_SIZE : Nat := 8

/-- Modelled from the spec: item ids occupy 10 bits. -/
def ITEM_BIT_LEN : Nat := 10

/-- Modelled from the spec: indom ids occupy 22 bits. -/
def INDOM_BIT_LEN : Nat := 22

/-- Modelled from the spec: begin_all reserves room for the short and the
long help text of each metric block, hence two string cells per metric
(section 4.6 layout: per metric the string section holds an optional
short help and an optional long help; the string value cell is reserved
with the value block). The constant is only declared, not defined,
under src/. -/
def MIN_STRINGS_PER_METRIC : Nat := 2

/-! ### SipHash-1-3, the model of std::collections::hash_map::DefaultHasher

Metric::new and Indom::new derive ids by feeding bytes to DefaultHasher
and truncating finish(). DefaultHasher is SipHasher13 keyed with (0, 0).
All words are 64-bit and wrap on addition; rotation is a 64-bit rotate
left. -/

/-- 64-bit wrapping addition. -/
def wadd (a b : Nat) : Nat := (a + b) % 2 ^ 64

/-- 64-bit rotate left by b bits, 0 < b < 64. -/
def rotl (x b : Nat) : Nat := ((x <<< b) ||| (x >>> (64 - b))) % 2 ^ 64

/-- The four 64-bit state words of SipHash. -/
structure SipState where
  v0 : Nat
  v1 : Nat
  v2 : Nat
  v3 : Nat
deriving DecidableEq

/-- One SipHash round. -/
def sipround (s : SipState) : SipState :=
  let v0 := wadd s.v0 s.v1
  let v1 := rotl s.v1 13
  let v1 := v1 ^^^ v0
  let v0 := rotl v0 32
  let v2 := wadd s.v2 s.v3
  let v3 := rotl s.v3 16
  let v3 := v3 ^^^ v2
  let v0 := wadd v0 v3
  let v3 := rotl v3 21
  let v3 := v3 ^^^ v0
  let v2 := wadd v2 v1
  let v1 := rotl v1 17
  let v1 := v1 ^^^ v2
  let v2 := rotl v2 32
  ⟨v0, v1, v2, v3⟩

/-- Initial state for keys k0, k1; DefaultHasher uses k0 = k1 = 0. -/
def sipInit (k0 k1 : Nat) : SipState :=
  ⟨k0 ^^^ 0x736f6d6570736575, k1 ^^^ 0x646f72616e646f6d,
   k0 ^^^ 0x6c7967656e657261, k1 ^^^ 0x7465646279746573⟩

/-- Little-endian value of a byte list (missing bytes read as zero). -/
def leVal : List Nat → Nat
  | [] => 0
  | b :: bs => b % 256 + 256 * leVal bs

/-- Split a byte list into full 8-byte blocks and the remaining tail. -/
def chunks8 : List Nat → List (List Nat) × List Nat
  | b0 :: b1 :: b2 :: b3 :: b4 :: b5 :: b6 :: b7 :: rest =>
      let (cs, tail) := chunks8 rest
      ([b0, b1, b2, b3, b4, b5, b6, b7] :: cs, tail)
  | bs => ([], bs)

/-- One SipHash-1-3 compression step for a 64-bit message word. -/
def sipCompress (s : SipState) (m : Nat) : SipState :=
  let s := { s with v3 := s.v3 ^^^ m }
  let s := sipround s
  { s with v0 := s.v0 ^^^ m }

/-- SipHash-1-3 with zero keys of a byte string: the value returned by
DefaultHasher::new() after write(bytes) and finish(). -/
def siphash13 (bytes : List Nat) : Nat :=
  let s := sipInit 0 0
  let (blocks, tail) := chunks8 bytes
  let s := blocks.foldl (fun st blk => sipCompress st (leVal blk)) s
  let b := ((bytes.length % 256) <<< 56) ||| leVal tail
  let s := sipCompress s b
  let s := { s with v2 := s.v2 ^^^ 0xff }
  let s := sipround (sipround (sipround s))
  s.v0 ^^^ s.v1 ^^^ s.v2 ^^^ s.v3

/-- Bytes fed to the hasher by the Hash impl of str: the UTF-8 bytes
followed by a 0xff terminator byte. -/
def strHashBytes (s : List Nat) : List Nat := s ++ [0xff]

/-- Little-endian bytes of a value, fixed width k. -/
def leBytes : Nat → Nat → List Nat
  | 0, _ => []
  | k + 1, n => n % 256 :: leBytes k (n / 256)

/-- Bytes fed to the hasher by the Hash impl of a slice of strs: the
length as a 64-bit little-endian usize, then each element through the
str Hash impl. -/
def sliceHashBytes (xs : List (List Nat)) : List Nat :=
  leBytes 8 xs.length ++ (xs.map strHashBytes).flatten

/-! ### Errors

Construction errors are Result strings in the source
(src/client/metric.rs); the distinct messages are modelled as
constructors: nameTooLong is the message "name longer than 63 bytes",
shortHelpTooLong and longHelpTooLong the analogous help messages,
instanceTooLong the message "instance longer than 63 bytes", and
dimOutOfRange the message produced by the check_dim macro. -/

inductive BuildErr where
  | nameTooLong
  | shortHelpTooLong
  | longHelpTooLong
  | instanceTooLong
  | dimOutOfRange
deriving DecidableEq

/-! ### Metric and Indom construction (src/client/metric.rs) -/

/-- In-memory singleton metric as constructed by Metric::new; the
semantics, the unit word, and the initial value are stored unchanged by
the constructor and are not constrained by any claim, so they are
omitted here. -/
structure Metric where
  name : List Nat
  item : Nat
  indom : Nat
  shorthelp : List Nat
  longhelp : List Nat
deriving DecidableEq

/-- Metric::new (src/client/metric.rs, lines 526 to 555): reject a name
of METRIC_NAME_MAX_LEN bytes or more, reject help texts of
STRING_BLOCK_LEN bytes or more, then derive the item id by hashing the
raw name bytes with DefaultHasher, truncating finish() to u32 and
masking to the low ITEM_BIT_LEN bits. No rejection of a zero item id
takes place. -/
def Metric.new (name shorthelp longhelp : List Nat) : Except BuildErr Metric :=
  if name.length ≥ METRIC_NAME_MAX_LEN then .error .nameTooLong
  else if shorthelp.length ≥ STRING_BLOCK_LEN then .error .shortHelpTooLong
  else if longhelp.length ≥ STRING_BLOCK_LEN then .error .longHelpTooLong
  else
    .ok { name := name
          item := siphash13 name % 2 ^ 32 &&& ((1 <<< ITEM_BIT_LEN) - 1)
          indom := 0
          shorthelp := shorthelp
          longhelp := longhelp }

/-- Instance domain as constructed by Indom::new. The instance set is
kept as the list of distinct instance names. -/
structure Indom where
  instances : List (List Nat)
  id : Nat
  shorthelp : List Nat
  longhelp : List Nat
deriving DecidableEq

/-- Indom::new (src/client/metric.rs, lines 596 to 618): hash the
ordered instance slice (length prefix, then each name with its 0xff
suffix), reject any instance name of METRIC_NAME_MAX_LEN bytes or more
and help texts of STRING_BLOCK_LEN bytes or more, then mask the hash,
truncated to u32, to the low INDOM_BIT_LEN bits. No rejection of a zero
indom id takes place. -/
def Indom.new (instances : List (List Nat)) (shorthelp longhelp : List Nat) :
    Except BuildErr Indom :=
  if instances.any (fun i => i.length ≥ METRIC_NAME_MAX_LEN) then
    .error .instanceTooLong
  else if shorthelp.length ≥ STRING_BLOCK_LEN then .error .shortHelpTooLong
  else if longhelp.length ≥ STRING_BLOCK_LEN then .error .longHelpTooLong
  else
    .ok { instances := instances
          id := siphash13 (sliceHashBytes instances) % 2 ^ 32 &&&
                  ((1 <<< INDOM_BIT_LEN) - 1)
          shorthelp := shorthelp
          longhelp := longhelp }

/-! ### Typed value codec (src/client/metric.rs lines 142 to 170,
src/metric.rs lines 31 to 57, and the value rendering of
src/mmv/mmvfmt.rs lines 160 to 191)

Floats are represented by their raw bit patterns, so transmutes between
a float and the unsigned integer of the same width are the identity on
the model. -/

/-- A value of one of the six numeric metric types. -/
inductive NumVal where
  | i32 (v : Int)
  | u32 (v : Nat)
  | i64 (v : Int)
  | u64 (v : Nat)
  | f32 (bits : Nat)
  | f64 (bits : Nat)
deriving DecidableEq

/-- Range constraints of the underlying machine types. -/
def NumVal.wf : NumVal → Prop
  | .i32 v => -(2 ^ 31) ≤ v ∧ v < 2 ^ 31
  | .u32 v => v < 2 ^ 32
  | .i64 v => -(2 ^ 63) ≤ v ∧ v < 2 ^ 63
  | .u64 v => v < 2 ^ 64
  | .f32 bits => bits < 2 ^ 32
  | .f64 bits => bits < 2 ^ 64

instance (tv : NumVal) : Decidable tv.wf := by
  cases tv <;> simp [NumVal.wf] <;> infer_instance

/-- MMV type code of a value (MTCode in src/mmv/mod.rs). -/
def NumVal.typeCode : NumVal → Nat
  | .i32 _ => 0
  | .u32 _ => 1
  | .i64 _ => 2
  | .u64 _ => 3
  | .f32 _ => 4
  | .f64 _ => 5

/-- The u64 written by the write method of the MetricType impls: the
value is transmuted to the unsigned type of its own width (identity on
the bit pattern) and then widened to u64 with `as`, which zero-extends
an unsigned source. -/
def NumVal.encodeSlot : NumVal → Nat
  | .i32 v => (v % (2 ^ 32 : Int)).toNat
  | .u32 v => v
  | .i64 v => (v % (2 ^ 64 : Int)).toNat
  | .u64 v => v
  | .f32 bits => bits
  | .f64 bits => bits

/-- The 8 little-endian bytes of the value slot (write_u64 with
LittleEndian byte order). -/
def writeU64LE (n : Nat) : List Nat :=
  [n % 256, n / 2 ^ 8 % 256, n / 2 ^ 16 % 256, n / 2 ^ 24 % 256,
   n / 2 ^ 32 % 256, n / 2 ^ 40 % 256, n / 2 ^ 48 % 256, n / 2 ^ 56 % 256]

/-- The 4 little-endian bytes of a 32-bit value. -/
def writeU32LE (n : Nat) : List Nat :=
  [n % 256, n / 2 ^ 8 % 256, n / 2 ^ 16 % 256, n / 2 ^ 24 % 256]

/-- Reading the slot back: read_u64 with LittleEndian byte order
(ValueBlk::from_reader in src/mmv/mod.rs). -/
def readU64LE (bs : List Nat) : Nat := leVal bs

/-- Reinterpret the low 32 bits of a u64 as an i32 (the `as i32` cast in
the I32 arm of write_values). -/
def i32OfU64 (n : Nat) : Int :=
  let t : Nat := n % 2 ^ 32
  if t < 2 ^ 31 then (t : Int) else (t : Int) - 2 ^ 32

/-- Reinterpret a u64 as an i64 (the `as i64` cast in the I64 arm). -/
def i64OfU64 (n : Nat) : Int :=
  if n % 2 ^ 64 < 2 ^ 63 then ((n % 2 ^ 64 : Nat) : Int)
  else ((n % 2 ^ 64 : Nat) : Int) - 2 ^ 64

/-- Decoding of a value slot at a declared type code, as performed by
write_values in src/mmv/mmvfmt.rs: U32 and U64 render the u64 itself,
I32 and I64 reinterpret through the signed casts, F32 transmutes the
low 32 bits, F64 transmutes the whole word. Returns none for type codes
above 5 (the String arm and invalid codes resolve strings instead). -/
def decodeSlot (typeCode : Nat) (slot : Nat) : Option NumVal :=
  match typeCode with
  | 0 => some (.i32 (i32OfU64 slot))
  | 1 => some (.u32 slot)
  | 2 => some (.i64 (i64OfU64 slot))
  | 3 => some (.u64 slot)
  | 4 => some (.f32 (slot % 2 ^ 32))
  | 5 => some (.f64 slot)
  | _ => none

/-! ### Header parser (Header::from_reader, src/mmv/mod.rs lines 205
to 254) -/

/-- Kinds of parse failure of the header. The source wraps them all in
MMVDumpError::InvalidMMV with the messages "Invalid MMV",
"Invalid version number", a generation mismatch message,
"Invalid TOC count" and "Invalid cluster ID"; reads past the end of the
input fail with MMVDumpError::Io. -/
inductive HdrErr where
  | invalidMagic
  | invalidVersion
  | generationMismatch
  | invalidTocCount
  | invalidClusterId
  | ioError
deriving DecidableEq

/-- Parsed MMV header. -/
structure Header where
  magic : List Nat
  version : Nat
  gen1 : Int
  gen2 : Int
  tocCount : Nat
  flags : Nat
  pid : Int
  clusterId : Nat
deriving DecidableEq

/-- Read n bytes at offset i; fails like the byteorder reads when the
input is exhausted. -/
def readBytes (bs : List Nat) (i n : Nat) : Option (List Nat) :=
  if i + n ≤ bs.length then some ((bs.drop i).take n) else none

/-- Read a little-endian u32 at offset i. -/
def readU32 (bs : List Nat) (i : Nat) : Option Nat :=
  (readBytes bs i 4).map leVal

/-- Read a little-endian u64 at offset i. -/
def readU64 (bs : List Nat) (i : Nat) : Option Nat :=
  (readBytes bs i 8).map leVal

/-- Read a little-endian i64 at offset i. -/
def readI64 (bs : List Nat) (i : Nat) : Option Int :=
  (readU64 bs i).map i64OfU64

/-- Read a little-endian i32 at offset i. -/
def readI32 (bs : List Nat) (i : Nat) : Option Int :=
  (readU32 bs i).map i32OfU64

/-- is_valid_cluster_id (src/mmv/mod.rs lines 89 to 91): the upper 20
bits of the 32-bit cluster id are zero. -/
def is_valid_cluster_id (clusterId : Nat) : Bool :=
  clusterId >>> CLUSTER_ID_BIT_LEN == 0

/-- is_valid_item (src/mmv/mod.rs lines 85 to 87). -/
def is_valid_item (item : Nat) : Bool :=
  item != 0 && (item >>> ITEM_BIT_LEN == 0)

/-- is_valid_indom (src/mmv/mod.rs lines 81 to 83). -/
def is_valid_indom (indom : Nat) : Bool :=
  indom != 0 && (indom >>> INDOM_BIT_LEN == 0)

/-- Header::from_reader: read and validate the fixed 40-byte header in
source order. Magic must be M M V NUL; the version must be 1 or 2;
the two generation numbers must agree; the TOC count must lie in
2..=5; the cluster id must pass is_valid_cluster_id. The flags and pid
fields are read but not constrained. -/
def Header.from_reader (bs : List Nat) : Except HdrErr Header :=
  match readBytes bs 0 4 with
  | none => .error .ioError
  | some magic =>
    if magic ≠ [77, 77, 86, 0] then .error .invalidMagic
    else match readU32 bs 4 with
    | none => .error .ioError
    | some version =>
      if version ≠ 1 ∧ version ≠ 2 then .error .invalidVersion
      else match readI64 bs 8, readI64 bs 16 with
      | none, _ => .error .ioError
      | _, none => .error .ioError
      | some gen1, some gen2 =>
        if gen1 ≠ gen2 then .error .generationMismatch
        else match readU32 bs 24 with
        | none => .error .ioError
        | some tocCount =>
          if tocCount > 5 ∨ tocCount < 2 then .error .invalidTocCount
          else match readU32 bs 28, readI32 bs 32, readU32 bs 36 with
          | none, _, _ => .error .ioError
          | _, none, _ => .error .ioError
          | _, _, none => .error .ioError
          | some flags, some pid, some clusterId =>
            if ¬ is_valid_cluster_id clusterId then .error .invalidClusterId
            else .ok { magic := magic, version := version, gen1 := gen1,
                       gen2 := gen2, tocCount := tocCount, flags := flags,
                       pid := pid, clusterId := clusterId }

/-- The four magic bytes of a file image (total accessor used to state
parsing conditions). -/
def magicBytes (bs : List Nat) : List Nat := (bs.drop 0).take 4

/-- The little-endian u32 field at byte offset i (total accessor). -/
def headerField32 (bs : List Nat) (i : Nat) : Nat := leVal ((bs.drop i).take 4)

/-- The little-endian i64 field at byte offset i (total accessor). -/
def headerField64 (bs : List Nat) (i : Nat) : Int :=
  i64OfU64 (leVal ((bs.drop i).take 8))

/-! ### String section writer (write_mmv_string, src/client/metric.rs
lines 973 to 1015)

The writer state keeps the string section offset, the running count of
written string cells, and the cache of non-value strings. The cache is
a HashMap in the source, modelled as an association list where an
insert prepends and lookup takes the first match. The registration
pass pre-seeds cache entries with none; write_mmv_string treats a none
entry exactly like an absent one. The model additionally keeps the
append-only log of written cells, which stands for the contents of the
string section of the file. -/

/-- One written 256-byte string cell: its byte offset, its content and
whether it was written for a string-typed value (true) or for a help
text (false). -/
structure StrCell where
  off : Nat
  content : List Nat
  isValue : Bool
deriving DecidableEq

/-- State of the string-section writer inside MMVWriterState. -/
structure StrWriter where
  string_sec_off : Nat
  string_blk_idx : Nat
  cache : List (List Nat × Option Nat)
  cells : List StrCell
deriving DecidableEq

/-- First-match lookup in the association-list model of the cache. -/
def lookupCache (cache : List (List Nat × Option Nat)) (s : List Nat) :
    Option (Option Nat) :=
  match cache with
  | [] => none
  | (k, v) :: rest => if k = s then some v else lookupCache rest s

/-- write_mmv_string: compute the offset of the next free string cell;
for a non-value string, return the cached offset when the string was
already written, otherwise record the new offset in the cache; then
write the string into the cell and advance the cell counter. Value
strings bypass the cache entirely. Returns the offset stored by the
caller in the referring block. -/
def write_mmv_string (ws : StrWriter) (s : List Nat) (is_value : Bool) :
    Nat × StrWriter :=
  let string_block_off := ws.string_sec_off + STRING_BLOCK_LEN * ws.string_blk_idx
  if is_value then
    (string_block_off,
     { ws with string_blk_idx := ws.string_blk_idx + 1,
               cells := ws.cells ++ [⟨string_block_off, s, true⟩] })
  else
    match lookupCache ws.cache s with
    | some (some cached) => (cached, ws)
    | _ =>
      (string_block_off,
       { ws with cache := (s, some string_block_off) :: ws.cache,
                 string_blk_idx := ws.string_blk_idx + 1,
                 cells := ws.cells ++ [⟨string_block_off, s, false⟩] })

/-- Run a sequence of string-write requests, returning the offset
handed back for each request (the value stored in the referring help
offset or string offset field) together with the final state. -/
def runStrings (ws : StrWriter) : List (List Nat × Bool) → List Nat × StrWriter
  | [] => ([], ws)
  | (s, b) :: rest =>
      let (o, ws') := write_mmv_string ws s b
      let (os, wsf) := runStrings ws' rest
      (o :: os, wsf)

/-- Number of help-text (non-value) cells with the given content. -/
def helpCount (cells : List StrCell) (s : List Nat) : Nat :=
  (cells.filter (fun c => c.content == s && c.isValue == false)).length

/-- Verification invariant of the string writer: a string cached with
an offset has exactly one help cell, located at that offset, and a
string without a cached offset (absent, or pre-seeded with none by the
registration pass) has no help cell yet. It holds for the fresh state
and is preserved by write_mmv_string. -/
def StrInv (ws : StrWriter) : Prop :=
  ∀ s,
    (∀ off, lookupCache ws.cache s = some (some off) →
      helpCount ws.cells s = 1 ∧ (⟨off, s, false⟩ : StrCell) ∈ ws.cells) ∧
    ((lookupCache ws.cache s = none ∨ lookupCache ws.cache s = some none) →
      helpCount ws.cells s = 0)

/-! ### Unit encoding (src/client/metric.rs lines 300 to 412) -/

def SPACE_DIM_LSB : Nat := 28
def TIME_DIM_LSB : Nat := 24
def COUNT_DIM_LSB : Nat := 20
def SPACE_SCALE_LSB : Nat := 16
def TIME_SCALE_LSB : Nat := 12
def COUNT_SCALE_LSB : Nat := 8
def LS_FOUR_BIT_MASK : Nat := 0xF

/-- Space scale enum, discriminants 0 to 6. -/
inductive Space where
  | Byte | KByte | MByte | GByte | TByte | PByte | EByte
deriving DecidableEq

/-- Discriminant of a Space value (the `as u32` cast). -/
def Space.toU32 : Space → Nat
  | .Byte => 0
  | .KByte => 1
  | .MByte => 2
  | .GByte => 3
  | .TByte => 4
  | .PByte => 5
  | .EByte => 6

/-- Space::from_u8. -/
def Space.from_u8 (x : Nat) : Option Space :=
  match x with
  | 0 => some .Byte
  | 1 => some .KByte
  | 2 => some .MByte
  | 3 => some .GByte
  | 4 => some .TByte
  | 5 => some .PByte
  | 6 => some .EByte
  | _ => none

/-- Time scale enum, discriminants 0 to 5. -/
inductive Time where
  | NSec | USec | MSec | Sec | Min | Hour
deriving DecidableEq

/-- Discriminant of a Time value. -/
def Time.toU32 : Time → Nat
  | .NSec => 0
  | .USec => 1
  | .MSec => 2
  | .Sec => 3
  | .Min => 4
  | .Hour => 5

/-- Time::from_u8. -/
def Time.from_u8 (x : Nat) : Option Time :=
  match x with
  | 0 => some .NSec
  | 1 => some .USec
  | 2 => some .MSec
  | 3 => some .Sec
  | 4 => some .Min
  | 5 => some .Hour
  | _ => none

/-- Count scale enum, the single discriminant 0. -/
inductive Count where
  | One
deriving DecidableEq

/-- Discriminant of a Count value. -/
def Count.toU32 : Count → Nat
  | .One => 0

/-- Count::from_u8. -/
def Count.from_u8 (x : Nat) : Option Count :=
  match x with
  | 0 => some .One
  | _ => none

/-- The bit-packed pmapi representation of a unit (named Unit in the
source; renamed here to avoid shadowing the Lean builtin). Bit 31 is
the most significant bit: bits 31 to 28 space dim (signed), 27 to 24
time dim, 23 to 20 count dim, 19 to 16 space scale, 15 to 12 time
scale, 11 to 8 count scale, 7 to 0 zero pad. -/
structure MMVUnit where
  pmapi_repr : Nat
deriving DecidableEq

/-- Unit::from_raw. -/
def MMVUnit.from_raw (pmapi_repr : Nat) : MMVUnit := ⟨pmapi_repr⟩

/-- Unit::new, the all-zero word. -/
def MMVUnit.new : MMVUnit := MMVUnit.from_raw 0

/-- The `as u32` cast of a signed value: reduce modulo 2 to the 32 and
take the resulting non-negative representative. -/
def ru32 (x : Int) : Nat := (x % (2 ^ 32 : Int)).toNat

/-- Unit::space: check_dim rejects dim outside the range -8 to 7, then
two in-place or-assignments pack the scale nibble at bit 16 and the
low four bits of the dimension at bit 28. -/
def MMVUnit.space (u : MMVUnit) (scale : Space) (dim : Int) :
    Except BuildErr MMVUnit :=
  if dim > 7 ∨ dim < -8 then .error .dimOutOfRange
  else .ok ⟨(u.pmapi_repr ||| (scale.toU32 <<< SPACE_SCALE_LSB)) |||
            ((ru32 dim &&& LS_FOUR_BIT_MASK) <<< SPACE_DIM_LSB)⟩

/-- Unit::time, packing at bits 12 and 24. -/
def MMVUnit.time (u : MMVUnit) (scale : Time) (dim : Int) :
    Except BuildErr MMVUnit :=
  if dim > 7 ∨ dim < -8 then .error .dimOutOfRange
  else .ok ⟨(u.pmapi_repr ||| (scale.toU32 <<< TIME_SCALE_LSB)) |||
            ((ru32 dim &&& LS_FOUR_BIT_MASK) <<< TIME_DIM_LSB)⟩

/-- Unit::count, packing at bits 8 and 20. -/
def MMVUnit.count (u : MMVUnit) (scale : Count) (dim : Int) :
    Except BuildErr MMVUnit :=
  if dim > 7 ∨ dim < -8 then .error .dimOutOfRange
  else .ok ⟨(u.pmapi_repr ||| (scale.toU32 <<< COUNT_SCALE_LSB)) |||
            ((ru32 dim &&& LS_FOUR_BIT_MASK) <<< COUNT_DIM_LSB)⟩

/-- The space_scale accessor: bits 19 to 16. -/
def MMVUnit.space_scale (u : MMVUnit) : Nat :=
  (u.pmapi_repr >>> SPACE_SCALE_LSB) &&& LS_FOUR_BIT_MASK

/-- The time_scale accessor: bits 15 to 12. -/
def MMVUnit.time_scale (u : MMVUnit) : Nat :=
  (u.pmapi_repr >>> TIME_SCALE_LSB) &&& LS_FOUR_BIT_MASK

/-- The count_scale accessor: bits 11 to 8. -/
def MMVUnit.count_scale (u : MMVUnit) : Nat :=
  (u.pmapi_repr >>> COUNT_SCALE_LSB) &&& LS_FOUR_BIT_MASK

/-- The dim accessor: left-shift the u32 so the 4-bit field becomes the
top nibble (the u32 shift discards bits above bit 31), reinterpret as
i32, arithmetic-shift right by 28 to sign-extend, then cast to i8.
The arithmetic shift of an i32 by 28 is floor division by 2 to the 28,
which for a positive divisor is Int division. -/
def MMVUnit.dim (u : MMVUnit) (lsb : Nat) : Int :=
  let t : Nat := (u.pmapi_repr <<< (32 - (lsb + 4))) % 2 ^ 32
  let s : Int := if t < 2 ^ 31 then (t : Int) else (t : Int) - 2 ^ 32
  let r : Int := s / 2 ^ 28
  let b : Int := r % 256
  if b < 128 then b else b - 256

/-- space_dim accessor. -/
def MMVUnit.space_dim (u : MMVUnit) : Int := u.dim SPACE_DIM_LSB

/-- time_dim accessor. -/
def MMVUnit.time_dim (u : MMVUnit) : Int := u.dim TIME_DIM_LSB

/-- count_dim accessor. -/
def MMVUnit.count_dim (u : MMVUnit) : Int := u.dim COUNT_DIM_LSB

/-! ### Layout sizing and value counting

Client::begin_all (src/client/mod.rs lines 271 to 305) receives the
counts from the caller: the API documentation instructs passing the
number of unique indoms, the number of unique instances, the number of
instance metrics and the number of singleton metrics. The registration
pass of the newer writer (MMVWriter::register in src/client/metric.rs
lines 787 to 846) instead accumulates the counts by walking the
declarations. -/

/-- The four counts passed to begin_all. -/
structure BeginAllArgs where
  n_indoms : Nat
  n_instances : Nat
  n_instance_metrics : Nat
  n_metrics : Nat
deriving DecidableEq

/-- The writer bookkeeping computed by begin_all. -/
structure BeginAllInfo where
  n_indoms : Nat
  n_instances : Nat
  n_instance_metrics : Nat
  n_metrics : Nat
  n_toc : Nat
  n_metric_blks : Nat
  n_value_blks : Nat
  hdr_toc_len : Nat
  mmv_size : Nat
deriving DecidableEq

/-- Client::begin_all sizing: the indom, instance and instance-metric
counts take effect only when all three are positive (adding the indom
and instance TOCs); n_metric_blks is the singleton count plus the
instance-metric count; n_value_blks is the singleton count plus the
product of the instance count and the instance-metric count; the file
is allocated with one extra reserved TOC slot for a possible string
TOC, two reserved string cells per metric block and one reserved
string cell per value block. -/
def begin_all (a : BeginAllArgs) : BeginAllInfo :=
  let useIndoms :=
    a.n_indoms > 0 ∧ a.n_instances > 0 ∧ a.n_instance_metrics > 0
  let n_indoms := if useIndoms then a.n_indoms else 0
  let n_instances := if useIndoms then a.n_instances else 0
  let n_instance_metrics := if useIndoms then a.n_instance_metrics else 0
  let n_toc := if useIndoms then 2 + 2 else 2
  let n_metric_blks := a.n_metrics + n_instance_metrics
  let n_value_blks := a.n_metrics + n_instances * n_instance_metrics
  let hdr_toc_len := HDR_LEN + TOC_BLOCK_LEN * (n_toc + 1)
  let mmv_size :=
    hdr_toc_len +
    n_indoms * INDOM_BLOCK_LEN +
    n_instances * INSTANCE_BLOCK_LEN +
    n_metric_blks * (METRIC_BLOCK_LEN + MIN_STRINGS_PER_METRIC * STRING_BLOCK_LEN) +
    n_value_blks * (VALUE_BLOCK_LEN + STRING_BLOCK_LEN)
  { n_indoms := n_indoms
    n_instances := n_instances
    n_instance_metrics := n_instance_metrics
    n_metrics := a.n_metrics
    n_toc := n_toc
    n_metric_blks := n_metric_blks
    n_value_blks := n_value_blks
    hdr_toc_len := hdr_toc_len
    mmv_size := mmv_size }

/-- The number of entries written into the value TOC block by
Client::write_values_toc_block (src/client/mod.rs lines 436 to 443):
the n_value_blks field of the writer info. -/
def valueTocEntries (a : BeginAllArgs) : Nat := (begin_all a).n_value_blks

/-- A top-level declaration handed to the writer: a singleton metric,
or an instance metric citing an indom (identified by its id) whose
distinct instance names are listed. -/
inductive Decl where
  | metricDecl
  | instDecl (indomId : Nat) (instances : List (List Nat))
deriving DecidableEq

/-- Value blocks actually emitted into the value section when the
declarations are registered: register_metric_common writes one value
block per singleton, and register_instance_metric (equally the write
method of InstanceMetric) writes one value block per instance of the
metric. The argument is the running value_blk_idx. -/
def writeValueBlocks (idx : Nat) : List Decl → Nat
  | [] => idx
  | .metricDecl :: rest => writeValueBlocks (idx + 1) rest
  | .instDecl _ insts :: rest => writeValueBlocks (idx + insts.length) rest

/-- The per-declaration value count of the specification: 1 for a
singleton, the instance count for an instance metric. -/
def declValueSum (decls : List Decl) : Nat :=
  (decls.map fun d =>
    match d with
    | .metricDecl => 1
    | .instDecl _ insts => insts.length).sum

/-- Counters accumulated by the registration pass (MMVWriterState in
src/client/metric.rs); the string bookkeeping is not modelled. -/
structure RegState where
  n_metrics : Nat
  n_values : Nat
  n_indoms : Nat
  n_instances : Nat
  indomSeen : List Nat
deriving DecidableEq

/-- One register call (src/client/metric.rs lines 787 to 797 for a
Metric, lines 828 to 846 for an InstanceMetric): a singleton adds one
metric and one value; an instance metric adds one metric and one value
per instance, and the first declaration citing an indom also adds that
indom and its instances to the indom and instance counts. -/
def registerDecl (ws : RegState) : Decl → RegState
  | .metricDecl =>
      { ws with n_metrics := ws.n_metrics + 1, n_values := ws.n_values + 1 }
  | .instDecl id insts =>
      let ws :=
        { ws with n_metrics := ws.n_metrics + 1,
                  n_values := ws.n_values + insts.length }
      if id ∈ ws.indomSeen then ws
      else { ws with n_indoms := ws.n_indoms + 1,
                     n_instances := ws.n_instances + insts.length,
                     indomSeen := id :: ws.indomSeen }

/-- Registration of a list of declarations starting from the fresh
writer state. -/
def registerAll (decls : List Decl) : RegState :=
  decls.foldl registerDecl ⟨0, 0, 0, 0, []⟩

/-- The unique-indom and unique-instance counts of a declaration list,
as the begin_all API documentation instructs the caller to compute
them: each distinct indom id counts once and contributes its instance
count. -/
def uniqueIndomCounts : List Decl → List Nat → Nat × Nat
  | [], _ => (0, 0)
  | .metricDecl :: rest, seen => uniqueIndomCounts rest seen
  | .instDecl id insts :: rest, seen =>
      if id ∈ seen then uniqueIndomCounts rest seen
      else
        let (nd, ni) := uniqueIndomCounts rest (id :: seen)
        (nd + 1, ni + insts.length)

/-- The begin_all arguments a caller derives from a declaration list
per the API documentation. -/
def argsOfDecls (decls : List Decl) : BeginAllArgs :=
  { n_indoms := (uniqueIndomCounts decls []).1
    n_instances := (uniqueIndomCounts decls []).2
    n_instance_metrics :=
      (decls.filter fun d =>
        match d with
        | .instDecl _ _ => true
        | _ => false).length
    n_metrics :=
      (decls.filter fun d =>
        match d with
        | .metricDecl => true
        | _ => false).length }

/-! ### Client construction (src/client/mod.rs lines 240 to 261) -/

/-- The client fields set by Client::new_custom that matter to the
header: the flags word and the masked cluster id. -/
structure Client where
  flags : Nat
  cluster_id : Nat
deriving DecidableEq

/-- Client::new_custom: the cluster id is masked to its low
CLUSTER_ID_BIT_LEN bits; in the source the constructor can fail only
through the io of resolving the mmv directory, never on account of the
cluster id. -/
def Client.new_custom (flags cluster_id : Nat) : Client :=
  { flags := flags
    cluster_id := cluster_id &&& ((1 <<< CLUSTER_ID_BIT_LEN) - 1) }

/-- The cluster id written at bytes 36 to 40 of the header by
Client::write_mmv_header: the stored field, unchanged. -/
def Client.headerClusterId (c : Client) : Nat := c.cluster_id

/-! ## Theorems -/

deriving instance DecidableEq for Except

/-! ### Helper lemmas -/

/-- A nat masked with 15 is its residue modulo 16. -/
theorem and_fifteen (x : Nat) : x &&& 15 = x % 16 := by
  have h := Nat.and_pow_two_sub_one_eq_mod x 4
  norm_num at h
  exact h

/-- Masking with a low-bit mask written through a shift of one is
reduction modulo the corresponding power of two. -/
theorem and_shift_mask (x n : Nat) : x &&& (1 <<< n - 1) = x % 2 ^ n := by
  rw [Nat.one_shiftLeft, Nat.and_pow_two_sub_one_eq_mod]

/-- A value masked to its low n bits right-shifted by n is zero. -/
theorem masked_shiftRight_zero (x n : Nat) : (x &&& (1 <<< n - 1)) >>> n = 0 := by
  rw [and_shift_mask, Nat.shiftRight_eq_div_pow]
  exact Nat.div_eq_of_lt (Nat.mod_lt _ (Nat.two_pow_pos n))

/-- Inserting a bit field into a hole of a packed word: when the low
part L fits below bit k and the new field together with L fits below
bit i, the or is an addition. -/
theorem lor_insert (i k H L v : Nat) (hL : L < 2 ^ k) (hLM : L < 2 ^ i)
    (hsum : 2 ^ k * v + L < 2 ^ i) :
    (2 ^ i * H + L) ||| (2 ^ k * v) = 2 ^ i * H + (2 ^ k * v + L) := by
  rw [Nat.mul_add_lt_is_or hLM H, Nat.or_assoc, Nat.or_comm L (2 ^ k * v),
    ← Nat.mul_add_lt_is_or hL v, ← Nat.mul_add_lt_is_or hsum H]

/-- An eight-byte little-endian word of a value below 2 to the 32 is
the four-byte word followed by four zero bytes. -/
theorem writeU64LE_small (n : Nat) (h : n < 2 ^ 32) :
    writeU64LE n = writeU32LE n ++ [0, 0, 0, 0] := by
  simp [writeU64LE, writeU32LE]
  omega

/-- Reading back the 8 little-endian bytes of a 64-bit value restores
the value. -/
theorem readU64LE_writeU64LE (n : Nat) (h : n < 2 ^ 64) :
    readU64LE (writeU64LE n) = n := by
  simp [readU64LE, writeU64LE, leVal]
  omega

/-- The n_values counter accumulated by the registration pass, from an
arbitrary starting state. -/
theorem registerFold_n_values (decls : List Decl) (ws : RegState) :
    (decls.foldl registerDecl ws).n_values = ws.n_values + declValueSum decls := by
  induction decls generalizing ws with
  | nil => simp [declValueSum]
  | cons d rest ih =>
      have hstep : (registerDecl ws d).n_values =
          ws.n_values + (match d with
            | .metricDecl => 1
            | .instDecl _ insts => insts.length) := by
        cases d with
        | metricDecl => rfl
        | instDecl id insts =>
            simp only [registerDecl]
            split <;> rfl
      cases d <;>
        simp only [List.foldl_cons, ih, hstep, declValueSum, List.map_cons,
          List.sum_cons] <;> omega

/-- The registration pass counts exactly one value per singleton and
one value per instance of each instance metric. -/
theorem registerAll_n_values (decls : List Decl) :
    (registerAll decls).n_values = declValueSum decls := by
  have h := registerFold_n_values decls ⟨0, 0, 0, 0, []⟩
  simpa [registerAll] using h

/-- The value blocks written into the value section also number one per
singleton and one per instance. -/
theorem writeValueBlocks_eq_sum (decls : List Decl) (idx : Nat) :
    writeValueBlocks idx decls = idx + declValueSum decls := by
  induction decls generalizing idx with
  | nil => simp [writeValueBlocks, declValueSum]
  | cons d rest ih =>
      cases d <;>
        simp [writeValueBlocks, declValueSum, ih] <;> omega

/-! ### C1 -/

/-- C1 counterexample: exporting one singleton metric with no indoms
through begin_all allocates a 992-byte file, not a 208-byte one: the
writer reserves a third TOC slot, two 256-byte help cells for the
metric block and a 256-byte string cell for the value block. -/
theorem begin_all_s1_size_ne_208 :
    (begin_all ⟨0, 0, 0, 1⟩).mmv_size = 992 ∧
    (begin_all ⟨0, 0, 0, 1⟩).mmv_size ≠ 208 := by decide

/-- C1 amended: the S1 export (one singleton u32 metric, empty help
texts, no indoms, version 1) produces a file of exactly 992 bytes: the
40-byte header, three reserved 16-byte TOC slots (only two TOCs are
written, the third slot is reserved for a possible string TOC), one
104-byte metric block plus two reserved 256-byte help-string cells,
and one 32-byte value block plus one reserved 256-byte string cell. -/
theorem begin_all_s1_size :
    (begin_all ⟨0, 0, 0, 1⟩).mmv_size =
      HDR_LEN + 3 * TOC_BLOCK_LEN +
      (METRIC_BLOCK_LEN + 2 * STRING_BLOCK_LEN) +
      (VALUE_BLOCK_LEN + STRING_BLOCK_LEN) ∧
    (begin_all ⟨0, 0, 0, 1⟩).mmv_size = 992 ∧
    (begin_all ⟨0, 0, 0, 1⟩).n_toc = 2 := by decide

/-! ### C2 -/

/-- C2: evaluating the two writers on two instance metrics that cite
two distinct single-instance indoms. The caller passes
begin_all(2, 2, 2, 0) as the API documentation instructs; the entries
field written into the value TOC is then 0 + 2 times 2 = 4, although
only 2 value blocks are written into the value section, and the
registration pass of the newer writer counts n_values = 2, the
per-declaration sum the claim states. -/
theorem value_toc_entries_overcount :
    valueTocEntries (argsOfDecls [.instDecl 1 [[97]], .instDecl 2 [[98]]]) = 4 ∧
    argsOfDecls [.instDecl 1 [[97]], .instDecl 2 [[98]]] = ⟨2, 2, 2, 0⟩ ∧
    writeValueBlocks 0 [.instDecl 1 [[97]], .instDecl 2 [[98]]] = 2 ∧
    declValueSum [.instDecl 1 [[97]], .instDecl 2 [[98]]] = 2 ∧
    (registerAll [.instDecl 1 [[97]], .instDecl 2 [[98]]]).n_values = 2 := by
  decide

/-! ### C3 -/

/-- C3 counterexample: Metric::new succeeds on the two-byte name uk yet
derives item id 0, and Indom::new succeeds on the single-instance
domain czpiv yet derives indom id 0: the constructors mask the hash
but never reject a zero id. -/
theorem zero_item_id_counterexample :
    Metric.new [117, 107] [] [] =
      .ok { name := [117, 107], item := 0, indom := 0,
            shorthelp := [], longhelp := [] } ∧
    Indom.new [[99, 122, 112, 105, 118]] [] [] =
      .ok { instances := [[99, 122, 112, 105, 118]], id := 0,
            shorthelp := [], longhelp := [] } := by decide

/-- C3 amended: for every name on which Metric::new succeeds the item
id fits in 10 bits, and for every instance list on which Indom::new
succeeds the indom id fits in 22 bits; neither id is guaranteed to be
non-zero, since the constructors never reject a zero hash residue. -/
theorem ids_fit_their_bit_widths :
    (∀ name sh lh m, Metric.new name sh lh = .ok m →
        m.item >>> ITEM_BIT_LEN = 0) ∧
    (∀ insts sh lh ind, Indom.new insts sh lh = .ok ind →
        ind.id >>> INDOM_BIT_LEN = 0) := by
  constructor
  · intro name sh lh m h
    unfold Metric.new at h
    split at h
    · exact absurd h (by simp)
    split at h
    · exact absurd h (by simp)
    split at h
    · exact absurd h (by simp)
    obtain ⟨rfl⟩ : m = _ := by
      cases h
      rfl
    exact masked_shiftRight_zero _ _
  · intro insts sh lh ind h
    unfold Indom.new at h
    split at h
    · exact absurd h (by simp)
    split at h
    · exact absurd h (by simp)
    split at h
    · exact absurd h (by simp)
    obtain ⟨rfl⟩ : ind = _ := by
      cases h
      rfl
    exact masked_shiftRight_zero _ _

/-- C3 amended witness: the theorem applied to the one-byte name p,
whose item id evaluates to 568. -/
theorem ids_fit_their_bit_widths_witness :
    Metric.new [112] [] [] =
      .ok { name := [112], item := 568, indom := 0,
            shorthelp := [], longhelp := [] } ∧
    (568 : Nat) >>> ITEM_BIT_LEN = 0 :=
  ⟨by decide,
   ids_fit_their_bit_widths.1 [112] [] []
     { name := [112], item := 568, indom := 0, shorthelp := [], longhelp := [] }
     (by decide)⟩

/-! ### C4 -/

/-- C4: for each of the six numeric types, decoding the 8-byte
little-endian slot produced by the encoder at the declared type code
restores the original value bit-exactly (floats being identified with
their bit patterns). -/
theorem numeric_value_roundtrip (tv : NumVal) (h : tv.wf) :
    decodeSlot tv.typeCode (readU64LE (writeU64LE tv.encodeSlot)) = some tv := by
  cases tv with
  | i32 v =>
      simp only [NumVal.wf] at h
      simp only [NumVal.typeCode, NumVal.encodeSlot]
      rw [readU64LE_writeU64LE _ (by omega)]
      simp only [decodeSlot, i32OfU64, Option.some.injEq, NumVal.i32.injEq]
      split <;> omega
  | u32 v =>
      simp only [NumVal.wf] at h
      simp only [NumVal.typeCode, NumVal.encodeSlot]
      rw [readU64LE_writeU64LE _ (by omega)]
      rfl
  | i64 v =>
      simp only [NumVal.wf] at h
      simp only [NumVal.typeCode, NumVal.encodeSlot]
      rw [readU64LE_writeU64LE _ (by omega)]
      simp only [decodeSlot, i64OfU64, Option.some.injEq, NumVal.i64.injEq]
      split <;> omega
  | u64 v =>
      simp only [NumVal.wf] at h
      simp only [NumVal.typeCode, NumVal.encodeSlot]
      rw [readU64LE_writeU64LE _ h]
      rfl
  | f32 bits =>
      simp only [NumVal.wf] at h
      simp only [NumVal.typeCode, NumVal.encodeSlot]
      rw [readU64LE_writeU64LE _ (by omega)]
      simp only [decodeSlot, Option.some.injEq, NumVal.f32.injEq]
      omega
  | f64 bits =>
      simp only [NumVal.wf] at h
      simp only [NumVal.typeCode, NumVal.encodeSlot]
      rw [readU64LE_writeU64LE _ h]
      rfl

/-- C4 witness: the round trip evaluated at the i32 value -5. -/
theorem numeric_value_roundtrip_witness :
    (NumVal.i32 (-5)).wf ∧
    decodeSlot (NumVal.i32 (-5)).typeCode
      (readU64LE (writeU64LE (NumVal.i32 (-5)).encodeSlot)) =
      some (NumVal.i32 (-5)) :=
  ⟨by decide, numeric_value_roundtrip (NumVal.i32 (-5)) (by decide)⟩

/-! ### C5 -/

/-- C5 counterexample: encoding the i32 value -1 produces the slot
0x00000000FFFFFFFF, whose upper four bytes are zero, not the all-ones
64-bit word the claim requires of sign extension. -/
theorem i32_encoding_not_sign_extended :
    writeU64LE (NumVal.encodeSlot (.i32 (-1))) = [255, 255, 255, 255, 0, 0, 0, 0] ∧
    NumVal.encodeSlot (.i32 (-1)) ≠ 2 ^ 64 - 1 := by decide

/-- C5 amended: every value of width below 64 bits, signed or unsigned,
is reinterpreted through the unsigned type of its own width and then
widened by zero extension: the low four bytes of the slot carry the
two-complement bit pattern and the upper four bytes are zero. In
particular the slot of -1i32 is 0x00000000FFFFFFFF. -/
theorem sub64_encoding_zero_extends (v : Int) (w : Nat)
    (hv1 : -(2 ^ 31) ≤ v) (hv2 : v < 2 ^ 31) (hw : w < 2 ^ 32) :
    writeU64LE (NumVal.encodeSlot (.i32 v)) = writeU32LE (ru32 v) ++ [0, 0, 0, 0] ∧
    writeU64LE (NumVal.encodeSlot (.u32 w)) = writeU32LE w ++ [0, 0, 0, 0] ∧
    writeU64LE (NumVal.encodeSlot (.f32 w)) = writeU32LE w ++ [0, 0, 0, 0] ∧
    writeU64LE (NumVal.encodeSlot (.i32 (-1))) = [255, 255, 255, 255, 0, 0, 0, 0] := by
  refine ⟨?_, ?_, ?_, by decide⟩
  · exact writeU64LE_small (ru32 v) (by unfold ru32; omega)
  · exact writeU64LE_small w hw
  · exact writeU64LE_small w hw

/-- C5 amended witness: the amended statement applied at v = -1 and
w = 7. -/
theorem sub64_encoding_zero_extends_witness :
    -(2 ^ 31) ≤ (-1 : Int) ∧ (-1 : Int) < 2 ^ 31 ∧ (7 : Nat) < 2 ^ 32 ∧
    (writeU64LE (NumVal.encodeSlot (.i32 (-1))) =
      writeU32LE (ru32 (-1)) ++ [0, 0, 0, 0] ∧
     writeU64LE (NumVal.encodeSlot (.u32 7)) = writeU32LE 7 ++ [0, 0, 0, 0] ∧
     writeU64LE (NumVal.encodeSlot (.f32 7)) = writeU32LE 7 ++ [0, 0, 0, 0] ∧
     writeU64LE (NumVal.encodeSlot (.i32 (-1))) =
       [255, 255, 255, 255, 0, 0, 0, 0]) :=
  ⟨by decide, by decide, by decide,
   sub64_encoding_zero_extends (-1) 7 (by decide) (by decide) (by decide)⟩

/-! ### C9 -/

set_option maxRecDepth 8192 in
/-- C9: Metric::new accepts a 63-byte name and rejects a 64-byte one;
accepts 255-byte short and long help texts and rejects 256-byte ones;
all three unit builders (space, time and count) accept dimensions 7
and -8 and reject 8 and -9 with the dimension-out-of-range error. -/
theorem construction_boundaries :
    (Metric.new (List.replicate 63 97) [] []).isOk = true ∧
    Metric.new (List.replicate 64 97) [] [] = .error .nameTooLong ∧
    (Metric.new [] (List.replicate 255 97) []).isOk = true ∧
    Metric.new [] (List.replicate 256 97) [] = .error .shortHelpTooLong ∧
    (Metric.new [] [] (List.replicate 255 97)).isOk = true ∧
    Metric.new [] [] (List.replicate 256 97) = .error .longHelpTooLong ∧
    (MMVUnit.new.space .Byte 7).isOk = true ∧
    (MMVUnit.new.space .Byte (-8)).isOk = true ∧
    MMVUnit.new.space .Byte 8 = .error .dimOutOfRange ∧
    MMVUnit.new.space .Byte (-9) = .error .dimOutOfRange ∧
    (MMVUnit.new.time .NSec 7).isOk = true ∧
    (MMVUnit.new.time .NSec (-8)).isOk = true ∧
    MMVUnit.new.time .NSec 8 = .error .dimOutOfRange ∧
    MMVUnit.new.time .NSec (-9) = .error .dimOutOfRange ∧
    (MMVUnit.new.count .One 7).isOk = true ∧
    (MMVUnit.new.count .One (-8)).isOk = true ∧
    MMVUnit.new.count .One 8 = .error .dimOutOfRange ∧
    MMVUnit.new.count .One (-9) = .error .dimOutOfRange := by decide

/-! ### C10 -/

/-- C10: Client::new_custom stores the cluster id reduced modulo 2 to
the 12 (its low 12 bits), the header emitter writes that stored value,
and the written value always passes the is_valid_cluster_id check of
the reader. -/
theorem new_custom_cluster_id_valid (flags cluster_id : Nat) :
    (Client.new_custom flags cluster_id).headerClusterId = cluster_id % 2 ^ 12 ∧
    is_valid_cluster_id ((Client.new_custom flags cluster_id).headerClusterId) = true := by
  constructor
  · show cluster_id &&& (1 <<< CLUSTER_ID_BIT_LEN - 1) = cluster_id % 2 ^ 12
    rw [and_shift_mask]
    rfl
  · show (((cluster_id &&& (1 <<< CLUSTER_ID_BIT_LEN - 1)) >>>
      CLUSTER_ID_BIT_LEN) == 0) = true
    rw [masked_shiftRight_zero]
    rfl

/-! ### C6 -/

/-- C6: given the full 40 header bytes, Header::from_reader succeeds
exactly when the magic is M M V NUL, the version is 1 or 2, the two
generation numbers agree, the TOC count lies in 2..=5 and the cluster
id passes is_valid_cluster_id; the first violated condition, in read
order, yields its corresponding error; the flags and pid fields are
passed through unconstrained, as are all other fields on success. -/
theorem header_parse_characterization (bs : List Nat) (h40 : 40 ≤ bs.length) :
    ((Header.from_reader bs).isOk = true ↔
      (magicBytes bs = [77, 77, 86, 0] ∧
       (headerField32 bs 4 = 1 ∨ headerField32 bs 4 = 2) ∧
       headerField64 bs 8 = headerField64 bs 16 ∧
       2 ≤ headerField32 bs 24 ∧ headerField32 bs 24 ≤ 5 ∧
       is_valid_cluster_id (headerField32 bs 36) = true)) ∧
    (magicBytes bs ≠ [77, 77, 86, 0] →
      Header.from_reader bs = .error .invalidMagic) ∧
    (magicBytes bs = [77, 77, 86, 0] →
      ¬(headerField32 bs 4 = 1 ∨ headerField32 bs 4 = 2) →
      Header.from_reader bs = .error .invalidVersion) ∧
    (magicBytes bs = [77, 77, 86, 0] →
      (headerField32 bs 4 = 1 ∨ headerField32 bs 4 = 2) →
      headerField64 bs 8 ≠ headerField64 bs 16 →
      Header.from_reader bs = .error .generationMismatch) ∧
    (magicBytes bs = [77, 77, 86, 0] →
      (headerField32 bs 4 = 1 ∨ headerField32 bs 4 = 2) →
      headerField64 bs 8 = headerField64 bs 16 →
      ¬(2 ≤ headerField32 bs 24 ∧ headerField32 bs 24 ≤ 5) →
      Header.from_reader bs = .error .invalidTocCount) ∧
    (magicBytes bs = [77, 77, 86, 0] →
      (headerField32 bs 4 = 1 ∨ headerField32 bs 4 = 2) →
      headerField64 bs 8 = headerField64 bs 16 →
      2 ≤ headerField32 bs 24 → headerField32 bs 24 ≤ 5 →
      is_valid_cluster_id (headerField32 bs 36) = false →
      Header.from_reader bs = .error .invalidClusterId) ∧
    (∀ h, Header.from_reader bs = .ok h →
      h.magic = magicBytes bs ∧ h.version = headerField32 bs 4 ∧
      h.gen1 = headerField64 bs 8 ∧ h.gen2 = headerField64 bs 16 ∧
      h.tocCount = headerField32 bs 24 ∧ h.flags = headerField32 bs 28 ∧
      h.pid = i32OfU64 (headerField32 bs 32) ∧
      h.clusterId = headerField32 bs 36) := by
  have e0 : readBytes bs 0 4 = some (magicBytes bs) := by
    unfold readBytes magicBytes
    rw [if_pos (by omega)]
  have e4 : readU32 bs 4 = some (headerField32 bs 4) := by
    unfold readU32 readBytes headerField32
    rw [if_pos (by omega)]
    rfl
  have e8 : readI64 bs 8 = some (headerField64 bs 8) := by
    unfold readI64 readU64 readBytes headerField64
    rw [if_pos (by omega)]
    rfl
  have e16 : readI64 bs 16 = some (headerField64 bs 16) := by
    unfold readI64 readU64 readBytes headerField64
    rw [if_pos (by omega)]
    rfl
  have e24 : readU32 bs 24 = some (headerField32 bs 24) := by
    unfold readU32 readBytes headerField32
    rw [if_pos (by omega)]
    rfl
  have e28 : readU32 bs 28 = some (headerField32 bs 28) := by
    unfold readU32 readBytes headerField32
    rw [if_pos (by omega)]
    rfl
  have e32 : readI32 bs 32 = some (i32OfU64 (headerField32 bs 32)) := by
    unfold readI32 readU32 readBytes headerField32
    rw [if_pos (by omega)]
    rfl
  have e36 : readU32 bs 36 = some (headerField32 bs 36) := by
    unfold readU32 readBytes headerField32
    rw [if_pos (by omega)]
    rfl
  have hfr : Header.from_reader bs =
      (if magicBytes bs ≠ [77, 77, 86, 0] then .error .invalidMagic
       else if headerField32 bs 4 ≠ 1 ∧ headerField32 bs 4 ≠ 2 then
         .error .invalidVersion
       else if headerField64 bs 8 ≠ headerField64 bs 16 then
         .error .generationMismatch
       else if headerField32 bs 24 > 5 ∨ headerField32 bs 24 < 2 then
         .error .invalidTocCount
       else if ¬ is_valid_cluster_id (headerField32 bs 36) then
         .error .invalidClusterId
       else .ok { magic := magicBytes bs, version := headerField32 bs 4,
                  gen1 := headerField64 bs 8, gen2 := headerField64 bs 16,
                  tocCount := headerField32 bs 24, flags := headerField32 bs 28,
                  pid := i32OfU64 (headerField32 bs 32),
                  clusterId := headerField32 bs 36 }) := by
    rw [Header.from_reader, e0]
    simp only []
    rw [e4]
    simp only []
    rw [e8, e16]
    simp only []
    rw [e24]
    simp only []
    rw [e28, e32, e36]
  rw [hfr]
  refine ⟨?_, ?_, ?_, ?_, ?_, ?_, ?_⟩
  · constructor
    · intro hOk
      split_ifs at hOk with c1 c2 c3 c4 c5 <;>
        first
          | exact absurd hOk (by decide)
          | exact ⟨by tauto, by tauto, by tauto, by omega, by omega, by tauto⟩
    · rintro ⟨m, v, g, t1, t2, cl⟩
      rw [if_neg (fun hh => hh m),
          if_neg (fun hh => Or.elim v hh.1 hh.2),
          if_neg (fun hh => hh g),
          if_neg (by omega),
          if_neg (by simp [cl])]
      rfl
  · intro hm
    rw [if_pos hm]
  · intro hm hv
    rw [if_neg (fun hh => hh hm),
        if_pos ⟨fun h1 => hv (Or.inl h1), fun h2 => hv (Or.inr h2)⟩]
  · intro hm hv hg
    rw [if_neg (fun hh => hh hm),
        if_neg (fun hh => Or.elim hv hh.1 hh.2),
        if_pos hg]
  · intro hm hv hg ht
    rw [if_neg (fun hh => hh hm),
        if_neg (fun hh => Or.elim hv hh.1 hh.2),
        if_neg (fun hh => hh hg),
        if_pos (by omega)]
  · intro hm hv hg ht1 ht2 hc
    rw [if_neg (fun hh => hh hm),
        if_neg (fun hh => Or.elim hv hh.1 hh.2),
        if_neg (fun hh => hh hg),
        if_neg (by omega),
        if_pos (by simp [hc])]
  · intro h hh
    split_ifs at hh with c1 c2 c3 c4 c5 <;>
      first
        | exact absurd hh (fun x => Except.noConfusion x)
        | (cases hh
           exact ⟨rfl, rfl, rfl, rfl, rfl, rfl, rfl, rfl⟩)

/-! ### C7 -/

/-- Appending a cell changes the help count of a content only when the
cell is a help cell of exactly that content. -/
theorem helpCount_append (cells : List StrCell) (o : Nat) (u : List Nat)
    (w : Bool) (t : List Nat) :
    helpCount (cells ++ [⟨o, u, w⟩]) t =
      helpCount cells t + (if u = t ∧ w = false then 1 else 0) := by
  simp only [helpCount, List.filter_append, List.length_append]
  congr 1
  by_cases h1 : u = t
  · by_cases h2 : w = false
    · subst h1
      subst h2
      simp
    · subst h1
      simp_all
  · have hbe : (u == t) = false := by simp [h1]
    simp [List.filter, hbe, h1]

/-- One write_mmv_string call preserves the invariant, the section
offset, the monotonicity of the cell counter, the cached offsets and
the written cells; a non-value call leaves its string cached at the
returned offset; a value call appends a fresh cell at the next free
offset and advances the counter. -/
theorem write_mmv_string_step (ws : StrWriter) (s : List Nat) (b : Bool)
    (h : StrInv ws) :
    StrInv (write_mmv_string ws s b).2 ∧
    (write_mmv_string ws s b).2.string_sec_off = ws.string_sec_off ∧
    ws.string_blk_idx ≤ (write_mmv_string ws s b).2.string_blk_idx ∧
    (∀ t off, lookupCache ws.cache t = some (some off) →
      lookupCache (write_mmv_string ws s b).2.cache t = some (some off)) ∧
    (∀ c, c ∈ ws.cells → c ∈ (write_mmv_string ws s b).2.cells) ∧
    (b = false → lookupCache (write_mmv_string ws s b).2.cache s =
      some (some (write_mmv_string ws s b).1)) ∧
    (b = true →
      (⟨(write_mmv_string ws s b).1, s, true⟩ : StrCell) ∈
        (write_mmv_string ws s b).2.cells ∧
      (write_mmv_string ws s b).1 =
        ws.string_sec_off + STRING_BLOCK_LEN * ws.string_blk_idx ∧
      (write_mmv_string ws s b).2.string_blk_idx = ws.string_blk_idx + 1) := by
  cases b with
  | true =>
      have hred : write_mmv_string ws s true =
          (ws.string_sec_off + STRING_BLOCK_LEN * ws.string_blk_idx,
           { ws with string_blk_idx := ws.string_blk_idx + 1,
                     cells := ws.cells ++
                       [⟨ws.string_sec_off + STRING_BLOCK_LEN * ws.string_blk_idx,
                         s, true⟩] }) := by
        unfold write_mmv_string
        rw [if_pos rfl]
      rw [hred]
      dsimp only
      refine ⟨?_, rfl, by omega, ?_, ?_, ?_, ?_⟩
      · intro t
        constructor
        · intro off hoff
          obtain ⟨hc, hm⟩ := (h t).1 off hoff
          rw [helpCount_append]
          exact ⟨by simp [hc], List.mem_append_left _ hm⟩
        · intro hnone
          rw [helpCount_append]
          simp [(h t).2 hnone]
      · exact fun t off hoff => hoff
      · exact fun c hc => List.mem_append_left _ hc
      · exact fun hh => absurd hh (by decide)
      · exact fun _ => ⟨by simp, rfl, rfl⟩
  | false =>
      rcases hl : lookupCache ws.cache s with _ | op
      · have hred : write_mmv_string ws s false =
            (ws.string_sec_off + STRING_BLOCK_LEN * ws.string_blk_idx,
             { ws with cache := (s, some (ws.string_sec_off +
                          STRING_BLOCK_LEN * ws.string_blk_idx)) :: ws.cache,
                       string_blk_idx := ws.string_blk_idx + 1,
                       cells := ws.cells ++
                         [⟨ws.string_sec_off + STRING_BLOCK_LEN * ws.string_blk_idx,
                           s, false⟩] }) := by
          unfold write_mmv_string
          rw [if_neg (by simp), hl]
        rw [hred]
        dsimp only
        refine ⟨?_, rfl, by omega, ?_, fun c hc => List.mem_append_left _ hc,
          ?_, fun hh => absurd hh (by decide)⟩
        · intro t
          by_cases hts : s = t
          · subst hts
            constructor
            · intro off hoff
              simp only [lookupCache, if_pos rfl] at hoff
              obtain rfl : ws.string_sec_off + STRING_BLOCK_LEN * ws.string_blk_idx
                  = off := by
                simpa using hoff
              rw [helpCount_append]
              refine ⟨by simp [(h s).2 (Or.inl hl)], ?_⟩
              exact List.mem_append_right _ (by simp)
            · intro hnone
              simp only [lookupCache, if_pos rfl] at hnone
              rcases hnone with hh | hh <;> simp at hh
          · constructor
            · intro off hoff
              simp only [lookupCache, if_neg hts] at hoff
              obtain ⟨hc, hm⟩ := (h t).1 off hoff
              rw [helpCount_append]
              refine ⟨by simp [hc, hts], List.mem_append_left _ hm⟩
            · intro hnone
              simp only [lookupCache, if_neg hts] at hnone
              rw [helpCount_append]
              simp [(h t).2 hnone, hts]
        · intro t off hoff
          by_cases hts : s = t
          · subst hts
            rw [hl] at hoff
            cases hoff
          · simpa [lookupCache, hts] using hoff
        · intro _
          simp [lookupCache]
      · rcases op with _ | off0
        · have hred : write_mmv_string ws s false =
              (ws.string_sec_off + STRING_BLOCK_LEN * ws.string_blk_idx,
               { ws with cache := (s, some (ws.string_sec_off +
                            STRING_BLOCK_LEN * ws.string_blk_idx)) :: ws.cache,
                         string_blk_idx := ws.string_blk_idx + 1,
                         cells := ws.cells ++
                           [⟨ws.string_sec_off + STRING_BLOCK_LEN * ws.string_blk_idx,
                             s, false⟩] }) := by
            unfold write_mmv_string
            rw [if_neg (by simp), hl]
          rw [hred]
          dsimp only
          refine ⟨?_, rfl, by omega, ?_, fun c hc => List.mem_append_left _ hc,
            ?_, fun hh => absurd hh (by decide)⟩
          · intro t
            by_cases hts : s = t
            · subst hts
              constructor
              · intro off hoff
                simp only [lookupCache, if_pos rfl] at hoff
                obtain rfl : ws.string_sec_off + STRING_BLOCK_LEN * ws.string_blk_idx
                    = off := by
                  simpa using hoff
                rw [helpCount_append]
                refine ⟨by simp [(h s).2 (Or.inr hl)], ?_⟩
                exact List.mem_append_right _ (by simp)
              · intro hnone
                simp only [lookupCache, if_pos rfl] at hnone
                rcases hnone with hh | hh <;> simp at hh
            · constructor
              · intro off hoff
                simp only [lookupCache, if_neg hts] at hoff
                obtain ⟨hc, hm⟩ := (h t).1 off hoff
                rw [helpCount_append]
                refine ⟨by simp [hc, hts], List.mem_append_left _ hm⟩
              · intro hnone
                simp only [lookupCache, if_neg hts] at hnone
                rw [helpCount_append]
                simp [(h t).2 hnone, hts]
          · intro t off hoff
            by_cases hts : s = t
            · subst hts
              rw [hl] at hoff
              simp at hoff
            · simpa [lookupCache, hts] using hoff
          · intro _
            simp [lookupCache]
        · have hred : write_mmv_string ws s false = (off0, ws) := by
            unfold write_mmv_string
            rw [if_neg (by simp), hl]
          rw [hred]
          exact ⟨h, rfl, le_refl _, fun t off hoff => hoff,
            fun c hc => hc, fun _ => hl, fun hh => absurd hh (by decide)⟩

/-- Every offset handed out for a value request during a run is at
least the offset of the next free cell of the starting state. -/
theorem runStrings_value_offset_lb (reqs : List (List Nat × Bool)) :
    ∀ ws j sj oj, StrInv ws → reqs.get? j = some (sj, true) →
      (runStrings ws reqs).1.get? j = some oj →
      ws.string_sec_off + STRING_BLOCK_LEN * ws.string_blk_idx ≤ oj := by
  induction reqs with
  | nil =>
      intro ws j sj oj _ hj _
      simp at hj
  | cons p rest ih =>
      intro ws j sj oj hinv hj hoj
      obtain ⟨s, b⟩ := p
      rcases hw : write_mmv_string ws s b with ⟨o, ws'⟩
      have step := write_mmv_string_step ws s b hinv
      rw [hw] at step
      obtain ⟨si', hsec, hidx, _, _, _, htrue⟩ := step
      have hrun : runStrings ws ((s, b) :: rest) =
          (o :: (runStrings ws' rest).1, (runStrings ws' rest).2) := by
        simp [runStrings, hw]
      rw [hrun] at hoj
      cases j with
      | zero =>
          simp at hj hoj
          obtain ⟨rfl, rfl⟩ := hj
          obtain ⟨_, ho, _⟩ := htrue rfl
          omega
      | succ j' =>
          simp only [List.get?_cons_succ] at hj hoj
          have hb := ih ws' j' sj oj si' hj hoj
          rw [hsec] at hb
          have : STRING_BLOCK_LEN * ws.string_blk_idx ≤
              STRING_BLOCK_LEN * ws'.string_blk_idx :=
            Nat.mul_le_mul_left _ hidx
          omega

/-- Two value requests at distinct positions receive strictly
increasing offsets: value strings are never deduplicated. -/
theorem runStrings_value_offsets_increasing (reqs : List (List Nat × Bool)) :
    ∀ ws i j si sj oi oj, StrInv ws → i < j →
      reqs.get? i = some (si, true) → reqs.get? j = some (sj, true) →
      (runStrings ws reqs).1.get? i = some oi →
      (runStrings ws reqs).1.get? j = some oj → oi < oj := by
  induction reqs with
  | nil =>
      intro ws i j si sj oi oj _ _ hi _ _ _
      simp at hi
  | cons p rest ih =>
      intro ws i j si sj oi oj hinv hij hi hj hoi hoj
      obtain ⟨s, b⟩ := p
      rcases hw : write_mmv_string ws s b with ⟨o, ws'⟩
      have step := write_mmv_string_step ws s b hinv
      rw [hw] at step
      obtain ⟨si', hsec, hidx, _, _, _, htrue⟩ := step
      have hrun : runStrings ws ((s, b) :: rest) =
          (o :: (runStrings ws' rest).1, (runStrings ws' rest).2) := by
        simp [runStrings, hw]
      rw [hrun] at hoi hoj
      cases i with
      | zero =>
          simp at hi hoi
          obtain ⟨rfl, rfl⟩ := hi
          obtain ⟨_, ho, hix⟩ := htrue rfl
          cases j with
          | zero => omega
          | succ j' =>
              simp only [List.get?_cons_succ] at hj hoj
              have hb := runStrings_value_offset_lb rest ws' j' sj oj si' hj hoj
              rw [hsec, hix] at hb
              simp only [STRING_BLOCK_LEN] at hb ho
              omega
      | succ i' =>
          cases j with
          | zero => omega
          | succ j' =>
              simp only [List.get?_cons_succ] at hi hj hoi hoj
              exact ih ws' i' j' si sj oi oj si' (by omega) hi hj hoi hoj

/-- Properties of a full run: the invariant is preserved; the section
offset is stable and the cell counter monotone; cached offsets and
written cells persist; each non-value request leaves its string cached
at the offset it returned; each value request leaves a value cell with
its content at the offset it returned. -/
theorem runStrings_props (reqs : List (List Nat × Bool)) :
    ∀ ws, StrInv ws →
      StrInv (runStrings ws reqs).2 ∧
      (runStrings ws reqs).2.string_sec_off = ws.string_sec_off ∧
      ws.string_blk_idx ≤ (runStrings ws reqs).2.string_blk_idx ∧
      (∀ t off, lookupCache ws.cache t = some (some off) →
        lookupCache (runStrings ws reqs).2.cache t = some (some off)) ∧
      (∀ c, c ∈ ws.cells → c ∈ (runStrings ws reqs).2.cells) ∧
      (∀ s o, ((s, false), o) ∈ reqs.zip (runStrings ws reqs).1 →
        lookupCache (runStrings ws reqs).2.cache s = some (some o)) ∧
      (∀ s o, ((s, true), o) ∈ reqs.zip (runStrings ws reqs).1 →
        (⟨o, s, true⟩ : StrCell) ∈ (runStrings ws reqs).2.cells) := by
  induction reqs with
  | nil =>
      intro ws h
      refine ⟨h, rfl, le_refl _, fun t off hoff => hoff, fun c hc => hc, ?_, ?_⟩
      · intro s o hmem
        simp [runStrings] at hmem
      · intro s o hmem
        simp [runStrings] at hmem
  | cons p rest ih =>
      intro ws h
      obtain ⟨s, b⟩ := p
      rcases hw : write_mmv_string ws s b with ⟨o, ws'⟩
      have step := write_mmv_string_step ws s b h
      rw [hw] at step
      dsimp only at step
      obtain ⟨si', hsec, hidx, hmono, hcmono, hfalse, htrue⟩ := step
      obtain ⟨ri, rsec, ridx, rmono, rcmono, rfalse, rtrue⟩ := ih ws' si'
      have hrun1 : (runStrings ws ((s, b) :: rest)).1 =
          o :: (runStrings ws' rest).1 := by
        simp [runStrings, hw]
      have hrun2 : (runStrings ws ((s, b) :: rest)).2 =
          (runStrings ws' rest).2 := by
        simp [runStrings, hw]
      rw [hrun1, hrun2]
      refine ⟨ri, rsec.trans hsec, le_trans hidx ridx, ?_, ?_, ?_, ?_⟩
      · intro t off hoff
        exact rmono t off (hmono t off hoff)
      · intro c hc
        exact rcmono c (hcmono c hc)
      · intro s0 o0 hmem
        rcases List.mem_cons.mp hmem with hhd | htl
        · injection hhd with h1 h2
          injection h1 with h3 h4
          subst h3
          subst h4
          subst h2
          exact rmono _ _ (hfalse rfl)
        · exact rfalse s0 o0 htl
      · intro s0 o0 hmem
        rcases List.mem_cons.mp hmem with hhd | htl
        · injection hhd with h1 h2
          injection h1 with h3 h4
          subst h3
          subst h4
          subst h2
          exact rcmono _ (htrue rfl).1
        · exact rtrue s0 o0 htl

/-- C7: starting from any writer state satisfying the string-writer
invariant (in particular the fresh state whose cache the registration
pass seeded with unwritten entries), help-text requests with equal
content all receive one and the same offset, the final string section
holds exactly one help cell with that content, and that cell sits at
the returned offset; value-string requests, by contrast, always
receive strictly increasing fresh offsets, each owning its own cell,
even when their contents coincide. -/
theorem help_string_dedup_value_fresh (reqs : List (List Nat × Bool))
    (ws0 : StrWriter) (hinv : StrInv ws0) :
    (∀ s o1 o2, ((s, false), o1) ∈ reqs.zip (runStrings ws0 reqs).1 →
      ((s, false), o2) ∈ reqs.zip (runStrings ws0 reqs).1 → o1 = o2) ∧
    (∀ s o, ((s, false), o) ∈ reqs.zip (runStrings ws0 reqs).1 →
      helpCount (runStrings ws0 reqs).2.cells s = 1 ∧
      (⟨o, s, false⟩ : StrCell) ∈ (runStrings ws0 reqs).2.cells) ∧
    (∀ s o, ((s, true), o) ∈ reqs.zip (runStrings ws0 reqs).1 →
      (⟨o, s, true⟩ : StrCell) ∈ (runStrings ws0 reqs).2.cells) ∧
    (∀ i j si sj oi oj, i < j →
      reqs.get? i = some (si, true) → reqs.get? j = some (sj, true) →
      (runStrings ws0 reqs).1.get? i = some oi →
      (runStrings ws0 reqs).1.get? j = some oj → oi < oj) := by
  obtain ⟨fi, _, _, _, _, ffalse, ftrue⟩ := runStrings_props reqs ws0 hinv
  refine ⟨?_, ?_, ftrue, ?_⟩
  · intro s o1 o2 h1 h2
    have e1 := ffalse s o1 h1
    have e2 := ffalse s o2 h2
    rw [e1] at e2
    simpa using e2
  · intro s o hmem
    exact (fi s).1 o (ffalse s o hmem)
  · intro i j si sj oi oj hij hi hj hoi hoj
    exact runStrings_value_offsets_increasing reqs ws0 i j si sj oi oj hinv
      hij hi hj hoi hoj

/-- C7 witness: the fresh writer state satisfies the invariant, and
the theorem applied to two identical help requests followed by two
identical value requests shows one help cell with that content in the
final section. -/
theorem help_string_dedup_value_fresh_witness :
    StrInv ⟨1000, 0, [], []⟩ ∧
    helpCount (runStrings ⟨1000, 0, [], []⟩
      [([104], false), ([104], false), ([99], true), ([99], true)]).2.cells
      [104] = 1 := by
  have hinv : StrInv ⟨1000, 0, [], []⟩ := by
    intro s
    refine ⟨?_, fun _ => rfl⟩
    intro off hoff
    simp [lookupCache] at hoff
  exact ⟨hinv,
    ((help_string_dedup_value_fresh
      [([104], false), ([104], false), ([99], true), ([99], true)]
      ⟨1000, 0, [], []⟩ hinv).2.1 [104] 1000 (by decide)).1⟩

/-! ### C8 -/

/-- C8: for every choice of the three scales and of three dimensions in
the range -8 to 7, building a unit from the empty unit by applying the
space, time and count builders once each succeeds, and reading the
packed word back through the three scale accessors (decoded by the
from_u8 readers) and the three sign-extending dimension accessors
returns the original 6-tuple. -/
theorem unit_roundtrip (ss : Space) (ts : Time) (cs : Count) (sd td cd : Int)
    (hsd1 : -8 ≤ sd) (hsd2 : sd ≤ 7) (htd1 : -8 ≤ td) (htd2 : td ≤ 7)
    (hcd1 : -8 ≤ cd) (hcd2 : cd ≤ 7) :
    ∃ u : MMVUnit,
      (MMVUnit.new.space ss sd >>= fun u1 => u1.time ts td >>= fun u2 =>
        u2.count cs cd) = .ok u ∧
      Space.from_u8 u.space_scale = some ss ∧
      Time.from_u8 u.time_scale = some ts ∧
      Count.from_u8 u.count_scale = some cs ∧
      u.space_dim = sd ∧ u.time_dim = td ∧ u.count_dim = cd := by
  obtain ⟨a, haeq, ha, hfa⟩ :
      ∃ a, Space.toU32 ss = a ∧ a < 16 ∧ Space.from_u8 a = some ss :=
    ⟨_, rfl, by cases ss <;> decide, by cases ss <;> rfl⟩
  obtain ⟨b, hbeq, hb, hfb⟩ :
      ∃ b, Time.toU32 ts = b ∧ b < 16 ∧ Time.from_u8 b = some ts :=
    ⟨_, rfl, by cases ts <;> decide, by cases ts <;> rfl⟩
  obtain ⟨c, hceq, hc, hfc⟩ :
      ∃ c, Count.toU32 cs = c ∧ c < 16 ∧ Count.from_u8 c = some cs :=
    ⟨_, rfl, by cases cs <;> decide, by cases cs <;> rfl⟩
  obtain ⟨D, hDeq, hD, hDval⟩ :
      ∃ D, ru32 sd &&& LS_FOUR_BIT_MASK = D ∧ D < 16 ∧ (D : Int) = sd % 16 := by
    refine ⟨_, rfl, ?_, ?_⟩
    · rw [show LS_FOUR_BIT_MASK = 15 from rfl, and_fifteen]
      omega
    · rw [show LS_FOUR_BIT_MASK = 15 from rfl, and_fifteen]
      unfold ru32
      omega
  obtain ⟨E, hEeq, hE, hEval⟩ :
      ∃ E, ru32 td &&& LS_FOUR_BIT_MASK = E ∧ E < 16 ∧ (E : Int) = td % 16 := by
    refine ⟨_, rfl, ?_, ?_⟩
    · rw [show LS_FOUR_BIT_MASK = 15 from rfl, and_fifteen]
      omega
    · rw [show LS_FOUR_BIT_MASK = 15 from rfl, and_fifteen]
      unfold ru32
      omega
  obtain ⟨F, hFeq, hF, hFval⟩ :
      ∃ F, ru32 cd &&& LS_FOUR_BIT_MASK = F ∧ F < 16 ∧ (F : Int) = cd % 16 := by
    refine ⟨_, rfl, ?_, ?_⟩
    · rw [show LS_FOUR_BIT_MASK = 15 from rfl, and_fifteen]
      omega
    · rw [show LS_FOUR_BIT_MASK = 15 from rfl, and_fifteen]
      unfold ru32
      omega
  have h1 : MMVUnit.new.space ss sd = .ok ⟨(0 ||| a <<< 16) ||| D <<< 28⟩ := by
    unfold MMVUnit.new MMVUnit.from_raw MMVUnit.space SPACE_SCALE_LSB SPACE_DIM_LSB
    rw [if_neg (by omega), haeq, hDeq]
  have h2 : MMVUnit.time ⟨(0 ||| a <<< 16) ||| D <<< 28⟩ ts td =
      .ok ⟨(((0 ||| a <<< 16) ||| D <<< 28) ||| b <<< 12) ||| E <<< 24⟩ := by
    unfold MMVUnit.time TIME_SCALE_LSB TIME_DIM_LSB
    rw [if_neg (by omega), hbeq, hEeq]
  have h3 : MMVUnit.count
      ⟨(((0 ||| a <<< 16) ||| D <<< 28) ||| b <<< 12) ||| E <<< 24⟩ cs cd =
      .ok ⟨(((((0 ||| a <<< 16) ||| D <<< 28) ||| b <<< 12) ||| E <<< 24) |||
            c <<< 8) ||| F <<< 20⟩ := by
    unfold MMVUnit.count COUNT_SCALE_LSB COUNT_DIM_LSB
    rw [if_neg (by omega), hceq, hFeq]
  have hpack : (((((0 ||| a <<< 16) ||| D <<< 28) ||| b <<< 12) ||| E <<< 24) |||
        c <<< 8) ||| F <<< 20 =
      2 ^ 28 * D + 2 ^ 24 * E + 2 ^ 20 * F + 2 ^ 16 * a + 2 ^ 12 * b + 2 ^ 8 * c := by
    have sA : (0 : Nat) ||| a <<< 16 = a * 2 ^ 16 := by
      rw [Nat.zero_or, Nat.shiftLeft_eq]
    have sB : a * 2 ^ 16 ||| D <<< 28 = 2 ^ 28 * D + a * 2 ^ 16 := by
      rw [Nat.shiftLeft_eq, Nat.or_comm, Nat.mul_comm D (2 ^ 28),
        ← Nat.mul_add_lt_is_or (by omega) D]
    have sC : (2 ^ 28 * D + a * 2 ^ 16) ||| b <<< 12 =
        2 ^ 28 * D + a * 2 ^ 16 + b * 2 ^ 12 := by
      rw [Nat.shiftLeft_eq,
        show 2 ^ 28 * D + a * 2 ^ 16 = 2 ^ 16 * (2 ^ 12 * D + a) + 0 by ring,
        show b * 2 ^ 12 = 2 ^ 12 * b by ring,
        lor_insert 16 12 (2 ^ 12 * D + a) 0 b (by omega) (by omega) (by omega)]
      ring
    have sD : (2 ^ 28 * D + a * 2 ^ 16 + b * 2 ^ 12) ||| E <<< 24 =
        2 ^ 28 * D + E * 2 ^ 24 + a * 2 ^ 16 + b * 2 ^ 12 := by
      rw [Nat.shiftLeft_eq,
        show 2 ^ 28 * D + a * 2 ^ 16 + b * 2 ^ 12 =
          2 ^ 28 * D + (a * 2 ^ 16 + b * 2 ^ 12) by ring,
        show E * 2 ^ 24 = 2 ^ 24 * E by ring,
        lor_insert 28 24 D (a * 2 ^ 16 + b * 2 ^ 12) E (by omega) (by omega)
          (by omega)]
      ring
    have sE : (2 ^ 28 * D + E * 2 ^ 24 + a * 2 ^ 16 + b * 2 ^ 12) ||| c <<< 8 =
        2 ^ 28 * D + E * 2 ^ 24 + a * 2 ^ 16 + b * 2 ^ 12 + c * 2 ^ 8 := by
      rw [Nat.shiftLeft_eq,
        show 2 ^ 28 * D + E * 2 ^ 24 + a * 2 ^ 16 + b * 2 ^ 12 =
          2 ^ 12 * (2 ^ 16 * D + 2 ^ 12 * E + 2 ^ 4 * a + b) + 0 by ring,
        show c * 2 ^ 8 = 2 ^ 8 * c by ring,
        lor_insert 12 8 (2 ^ 16 * D + 2 ^ 12 * E + 2 ^ 4 * a + b) 0 c (by omega)
          (by omega) (by omega)]
      ring
    have sF : (2 ^ 28 * D + E * 2 ^ 24 + a * 2 ^ 16 + b * 2 ^ 12 + c * 2 ^ 8) |||
        F <<< 20 =
        2 ^ 28 * D + E * 2 ^ 24 + F * 2 ^ 20 + a * 2 ^ 16 + b * 2 ^ 12 + c * 2 ^ 8 := by
      rw [Nat.shiftLeft_eq,
        show 2 ^ 28 * D + E * 2 ^ 24 + a * 2 ^ 16 + b * 2 ^ 12 + c * 2 ^ 8 =
          2 ^ 24 * (2 ^ 4 * D + E) + (a * 2 ^ 16 + b * 2 ^ 12 + c * 2 ^ 8) by ring,
        show F * 2 ^ 20 = 2 ^ 20 * F by ring,
        lor_insert 24 20 (2 ^ 4 * D + E) (a * 2 ^ 16 + b * 2 ^ 12 + c * 2 ^ 8) F
          (by omega) (by omega) (by omega)]
      ring
    rw [sA, sB, sC, sD, sE, sF]
    ring
  refine ⟨⟨(((((0 ||| a <<< 16) ||| D <<< 28) ||| b <<< 12) ||| E <<< 24) |||
      c <<< 8) ||| F <<< 20⟩, ?_, ?_, ?_, ?_, ?_, ?_, ?_⟩
  · rw [h1]
    show MMVUnit.time _ ts td >>= _ = _
    rw [h2]
    show MMVUnit.count _ cs cd = _
    exact h3
  · show Space.from_u8 ((_ >>> SPACE_SCALE_LSB) &&& LS_FOUR_BIT_MASK) = _
    rw [hpack, show LS_FOUR_BIT_MASK = 15 from rfl, and_fifteen,
      show SPACE_SCALE_LSB = 16 from rfl, Nat.shiftRight_eq_div_pow,
      show (2 ^ 28 * D + 2 ^ 24 * E + 2 ^ 20 * F + 2 ^ 16 * a + 2 ^ 12 * b +
        2 ^ 8 * c) / 2 ^ 16 % 16 = a by omega]
    exact hfa
  · show Time.from_u8 ((_ >>> TIME_SCALE_LSB) &&& LS_FOUR_BIT_MASK) = _
    rw [hpack, show LS_FOUR_BIT_MASK = 15 from rfl, and_fifteen,
      show TIME_SCALE_LSB = 12 from rfl, Nat.shiftRight_eq_div_pow,
      show (2 ^ 28 * D + 2 ^ 24 * E + 2 ^ 20 * F + 2 ^ 16 * a + 2 ^ 12 * b +
        2 ^ 8 * c) / 2 ^ 12 % 16 = b by omega]
    exact hfb
  · show Count.from_u8 ((_ >>> COUNT_SCALE_LSB) &&& LS_FOUR_BIT_MASK) = _
    rw [hpack, show LS_FOUR_BIT_MASK = 15 from rfl, and_fifteen,
      show COUNT_SCALE_LSB = 8 from rfl, Nat.shiftRight_eq_div_pow,
      show (2 ^ 28 * D + 2 ^ 24 * E + 2 ^ 20 * F + 2 ^ 16 * a + 2 ^ 12 * b +
        2 ^ 8 * c) / 2 ^ 8 % 16 = c by omega]
    exact hfc
  · unfold MMVUnit.space_dim MMVUnit.dim SPACE_DIM_LSB
    rw [hpack]
    simp only [Nat.shiftLeft_eq]
    split_ifs <;> omega
  · unfold MMVUnit.time_dim MMVUnit.dim TIME_DIM_LSB
    rw [hpack]
    simp only [Nat.shiftLeft_eq]
    split_ifs <;> omega
  · unfold MMVUnit.count_dim MMVUnit.dim COUNT_DIM_LSB
    rw [hpack]
    simp only [Nat.shiftLeft_eq]
    split_ifs <;> omega

/-- C8 witness: the round trip applied at scales KByte, MSec, One and
dimensions 2, -3 and 1. -/
theorem unit_roundtrip_witness :
    -8 ≤ (2 : Int) ∧ (2 : Int) ≤ 7 ∧ -8 ≤ (-3 : Int) ∧ (-3 : Int) ≤ 7 ∧
    -8 ≤ (1 : Int) ∧ (1 : Int) ≤ 7 ∧
    ∃ u : MMVUnit,
      (MMVUnit.new.space .KByte 2 >>= fun u1 => u1.time .MSec (-3) >>= fun u2 =>
        u2.count .One 1) = .ok u ∧
      Space.from_u8 u.space_scale = some .KByte ∧
      Time.from_u8 u.time_scale = some .MSec ∧
      Count.from_u8 u.count_scale = some .One ∧
      u.space_dim = 2 ∧ u.time_dim = -3 ∧ u.count_dim = 1 :=
  ⟨by decide, by decide, by decide, by decide, by decide, by decide,
   unit_roundtrip .KByte .MSec .One 2 (-3) 1 (by decide) (by decide) (by decide)
     (by decide) (by decide) (by decide)⟩

/-- C6 witness: a concrete valid 40-byte header (version 1, generation
7, TOC count 2, flags 2, pid 1337, cluster 3) parses successfully, by
the characterization theorem. -/
theorem header_parse_characterization_witness :
    40 ≤ ([77, 77, 86, 0, 1, 0, 0, 0, 7, 0, 0, 0, 0, 0, 0, 0,
           7, 0, 0, 0, 0, 0, 0, 0, 2, 0, 0, 0, 2, 0, 0, 0,
           57, 5, 0, 0, 3, 0, 0, 0] : List Nat).length ∧
    (Header.from_reader
      [77, 77, 86, 0, 1, 0, 0, 0, 7, 0, 0, 0, 0, 0, 0, 0,
       7, 0, 0, 0, 0, 0, 0, 0, 2, 0, 0, 0, 2, 0, 0, 0,
       57, 5, 0, 0, 3, 0, 0, 0]).isOk = true :=
  ⟨by decide,
   ((header_parse_characterization
      [77, 77, 86, 0, 1, 0, 0, 0, 7, 0, 0, 0, 0, 0, 0, 0,
       7, 0, 0, 0, 0, 0, 0, 0, 2, 0, 0, 0, 2, 0, 0, 0,
       57, 5, 0, 0, 3, 0, 0, 0] (by decide)).1).mpr (by decide)⟩

end Hornet
